import Mathlib

/-!
Verification of the jito-shredstream client's decode-and-dispatch pipeline
(`src/main.go`).  Byte buffers are `List Nat` (each element one byte), a
decode cursor is the list of bytes not yet consumed, and fallible reads
return `Option`/`Except`.
-/

set_option maxRecDepth 40000

/-- A 32-byte value (hash, account key, blockhash) or a 64-byte signature:
just its bytes. -/
abbrev Bytes := List Nat

/-- Little-endian value of a byte list (first byte is least significant). -/
def u64LE : List Nat → Nat
  | [] => 0
  | b :: rest => b + 256 * u64LE rest

/-- Modelled from the spec: the third-party binary cursor (`bin.Decoder` of
gagliardetto/binary) used by the source.  Reading one byte fails when the
buffer is exhausted (spec section 4.2: an out-of-bounds read fails). -/
def readByte : List Nat → Option (Nat × List Nat)
  | [] => none
  | b :: rest => some (b, rest)

/-- Modelled from the spec: `decoder.Read` into an `n`-byte buffer fails when
fewer than `n` bytes remain, otherwise consumes exactly `n` bytes. -/
def readNBytes (n : Nat) (b : List Nat) : Option (List Nat × List Nat) :=
  if b.length < n then none else some (b.take n, b.drop n)

/-- Modelled from the spec: `decoder.ReadUint64(bin.LE)` — consume 8 bytes and
return their little-endian value, failing when fewer than 8 bytes remain. -/
def readU64LE (b : List Nat) : Option (Nat × List Nat) :=
  if b.length < 8 then none else some (u64LE (b.take 8), b.drop 8)

/-- Modelled from the spec: the compact length encoding (7 data bits per byte,
high bit of a byte set means continuation; little-endian 7-bit groups). -/
def readCompactLen : List Nat → Option (Nat × List Nat)
  | [] => none
  | b :: rest =>
      if b < 128 then some (b, rest)
      else
        match readCompactLen rest with
        | none => none
        | some (n, rest') => some (b % 128 + 128 * n, rest')

/-- Read `n` consecutive chunks of `k` bytes each. -/
def readChunks : Nat → Nat → List Nat → Option (List Bytes × List Nat)
  | 0, _, b => some ([], b)
  | n + 1, k, b =>
      match readNBytes k b with
      | none => none
      | some (c, b') =>
          match readChunks n k b' with
          | none => none
          | some (cs, b'') => some (c :: cs, b'')

/-- The three counts of a Solana message header (each one wire byte). -/
structure MessageHeader where
  numRequiredSignatures : Nat
  numReadonlySigned : Nat
  numReadonlyUnsigned : Nat
deriving DecidableEq

/-- One compiled instruction of a message. -/
structure CompiledInstruction where
  programIdIndex : Nat
  accounts : List Nat
  data : List Nat
deriving DecidableEq

/-- A decoded transaction message. -/
structure TxMessage where
  header : MessageHeader
  accountKeys : List Bytes
  recentBlockhash : Bytes
  instructions : List CompiledInstruction
deriving DecidableEq

/-- A decoded transaction: signatures plus its message. -/
structure Transaction where
  signatures : List Bytes
  message : TxMessage
deriving DecidableEq

/-- Decode failures of the transaction wire decoder (spec section 4.2). -/
inductive TxError where
  | truncated
  | noSignatures
deriving DecidableEq

/-- Modelled from the spec: decode one instruction — a 1-byte program-id
index, a compact-length-prefixed sequence of 1-byte account indices, and a
compact-length-prefixed opaque data blob (spec section 4.2). -/
def readInstruction (b : List Nat) : Option (CompiledInstruction × List Nat) :=
  match readByte b with
  | none => none
  | some (progIdx, b) =>
      match readCompactLen b with
      | none => none
      | some (nAccts, b) =>
          match readNBytes nAccts b with
          | none => none
          | some (accts, b) =>
              match readCompactLen b with
              | none => none
              | some (dataLen, b) =>
                  match readNBytes dataLen b with
                  | none => none
                  | some (dat, b) => some (⟨progIdx, accts, dat⟩, b)

/-- Decode `n` consecutive instructions. -/
def readInstructions : Nat → List Nat → Option (List CompiledInstruction × List Nat)
  | 0, b => some ([], b)
  | n + 1, b =>
      match readInstruction b with
      | none => none
      | some (ins, b') =>
          match readInstructions n b' with
          | none => none
          | some (rest, b'') => some (ins :: rest, b'')

/-- Modelled from the spec: the third-party transaction decoder
(`solana.Transaction.UnmarshalWithDecoder`), per spec section 4.2 — a
compact-length-prefixed sequence of 64-byte signatures (at least one, else
`NoSignatures`), a 3-byte header, a compact-length-prefixed sequence of
32-byte account keys, a 32-byte recent blockhash, and a
compact-length-prefixed sequence of instructions; any out-of-bounds read
fails with `Truncated`.  Returns the transaction and the unconsumed bytes. -/
def decodeTx (b : List Nat) : Except TxError (Transaction × List Nat) :=
  match readCompactLen b with
  | none => .error .truncated
  | some (nSigs, b) =>
    if nSigs = 0 then .error .noSignatures
    else
      match readChunks nSigs 64 b with
      | none => .error .truncated
      | some (sigs, b) =>
        match readByte b with
        | none => .error .truncated
        | some (h0, b) =>
          match readByte b with
          | none => .error .truncated
          | some (h1, b) =>
            match readByte b with
            | none => .error .truncated
            | some (h2, b) =>
              match readCompactLen b with
              | none => .error .truncated
              | some (nKeys, b) =>
                match readChunks nKeys 32 b with
                | none => .error .truncated
                | some (keys, b) =>
                  match readNBytes 32 b with
                  | none => .error .truncated
                  | some (blockhash, b) =>
                    match readCompactLen b with
                    | none => .error .truncated
                    | some (nInstr, b) =>
                      match readInstructions nInstr b with
                      | none => .error .truncated
                      | some (instrs, b) =>
                        .ok (⟨sigs, ⟨⟨h0, h1, h2⟩, keys, blockhash, instrs⟩⟩, b)

/-- A decoded ledger entry (`SolanaEntry` in `src/main.go`). -/
structure SolanaEntry where
  numHashes : Nat
  hash : Bytes
  transactions : List Transaction
deriving DecidableEq

/-- The decode-error taxonomy of the source's entry decoders, one constructor
per distinct `fmt.Errorf` site reachable from `processEntry`,
`parseStandardEntry`, `parseJitoEntry` and `SolanaEntry.UnmarshalWithDecoder`. -/
inductive ParseError where
  | tooSmall (n : Nat)
  | readNumHashesFailed
  | unreasonableNumHashes (n : Nat)
  | readHashFailed
  | readNumTxnsFailed
  | unreasonableNumTxns (n : Nat)
  | insufficientBytes (n : Nat)
  | firstTxnFailed (e : TxError)
  | txnDecodeFailed (i : Nat) (e : TxError)
  | jitoTooShort
  | skipHeaderFailed
  | allMethodsFailed (e : ParseError)
deriving DecidableEq

/-- The transaction loop of `parseStandardEntry` (src/main.go lines 281-292):
fuel counts the iterations left, `idx` is the loop index `i`.  A failed decode
aborts the whole parse only when `i == 0`; a later failure breaks the loop and
keeps the transactions accumulated so far. -/
def txLoopPartial : Nat → Nat → List Nat → List Transaction →
    Except ParseError (List Transaction)
  | 0, _, _, acc => .ok acc.reverse
  | n + 1, idx, b, acc =>
      match decodeTx b with
      | .error e => if idx = 0 then .error (.firstTxnFailed e) else .ok acc.reverse
      | .ok (tx, b') => txLoopPartial n (idx + 1) b' (tx :: acc)

/-- The transaction loop of `SolanaEntry.UnmarshalWithDecoder` (src/main.go
lines 593-602): any failed transaction decode aborts the whole parse. -/
def txLoopStrict : Nat → Nat → List Nat → List Transaction →
    Except ParseError (List Transaction)
  | 0, _, _, acc => .ok acc.reverse
  | n + 1, idx, b, acc =>
      match decodeTx b with
      | .error e => .error (.txnDecodeFailed idx e)
      | .ok (tx, b') => txLoopStrict n (idx + 1) b' (tx :: acc)

/-- The field-and-sanity-check phase of `parseStandardEntry` (src/main.go
lines 240-278): read `num_hashes` (8-byte LE), reject values above 1,000,000;
read the 32-byte hash; read the transaction count (8-byte LE), reject values
above 10,000; reject when `num_txns * 100` exceeds the remaining byte count.
Returns `(num_hashes, hash, num_txns, remaining bytes)`. -/
def parseEntryHead (data : List Nat) :
    Except ParseError (Nat × Bytes × Nat × List Nat) :=
  match readU64LE data with
  | none => .error .readNumHashesFailed
  | some (numHashes, r1) =>
    if numHashes > 1000000 then .error (.unreasonableNumHashes numHashes)
    else
      match readNBytes 32 r1 with
      | none => .error .readHashFailed
      | some (hash, r2) =>
        match readU64LE r2 with
        | none => .error .readNumTxnsFailed
        | some (numTxns, r3) =>
          if numTxns > 10000 then .error (.unreasonableNumTxns numTxns)
          else if numTxns * 100 > r3.length then .error (.insufficientBytes numTxns)
          else .ok (numHashes, hash, numTxns, r3)

/-- `parseStandardEntry` (src/main.go lines 240-299): the head phase above
followed by the partial-success transaction loop. -/
def parseStandardEntry (data : List Nat) : Except ParseError SolanaEntry :=
  match parseEntryHead data with
  | .error e => .error e
  | .ok (numHashes, hash, numTxns, rest) =>
       match txLoopPartial numTxns 0 rest [] with
       | .error e => .error e
       | .ok txs => .ok ⟨numHashes, hash, txs⟩

/-- `parseJitoEntry` (src/main.go lines 302-317): require at least 16 bytes,
skip the 8-byte header (a `ReadUint64`), then run `parseStandardEntry` on the
buffer with its first 8 bytes removed (`data[8:]`). -/
def parseJitoEntry (data : List Nat) : Except ParseError SolanaEntry :=
  if data.length < 16 then .error .jitoTooShort
  else
    match readU64LE data with
    | none => .error .skipHeaderFailed
    | some _ => parseStandardEntry (data.drop 8)

/-- The decode outcome of `processEntry` (src/main.go lines 185-237): reject
buffers under 48 bytes, otherwise decode via `parseJitoEntry`.  The source
consumes the decoded entry with side effects and returns `nil`; the model
returns the decoded entry itself. -/
def processEntry (data : List Nat) : Except ParseError SolanaEntry :=
  if data.length < 48 then .error (.tooSmall data.length)
  else
    match parseJitoEntry data with
    | .error e => .error (.allMethodsFailed e)
    | .ok entry => .ok entry

/-- The field phase of `SolanaEntry.UnmarshalWithDecoder` (src/main.go lines
554-590): like `parseEntryHead` but with NO upper bound on `num_hashes` (and a
byte-count check on the hash read, subsumed here by `readNBytes`). -/
def unmarshalEntryHead (data : List Nat) :
    Except ParseError (Nat × Bytes × Nat × List Nat) :=
  match readU64LE data with
  | none => .error .readNumHashesFailed
  | some (numHashes, r1) =>
    match readNBytes 32 r1 with
    | none => .error .readHashFailed
    | some (hash, r2) =>
      match readU64LE r2 with
      | none => .error .readNumTxnsFailed
      | some (numTxns, r3) =>
        if numTxns > 10000 then .error (.unreasonableNumTxns numTxns)
        else if numTxns * 100 > r3.length then .error (.insufficientBytes numTxns)
        else .ok (numHashes, hash, numTxns, r3)

/-- `SolanaEntry.UnmarshalWithDecoder` (src/main.go lines 554-605): the
unbounded head phase followed by the strict transaction loop. -/
def entryUnmarshalWithDecoder (data : List Nat) : Except ParseError SolanaEntry :=
  match unmarshalEntryHead data with
  | .error e => .error e
  | .ok (numHashes, hash, numTxns, rest) =>
       match txLoopStrict numTxns 0 rest [] with
       | .error e => .error e
       | .ok txs => .ok ⟨numHashes, hash, txs⟩

/-- Reference run of the transaction decoder: decode exactly `n` consecutive
transactions, returning them and the cursor after them, or `none` if any of
the `n` fails.  Used to phrase "the first `n` declared transactions decode and
the next one fails". -/
def runTxs : Nat → List Nat → Option (List Transaction × List Nat)
  | 0, b => some ([], b)
  | n + 1, b =>
      match decodeTx b with
      | .error _ => none
      | .ok (tx, b') =>
          match runTxs n b' with
          | none => none
          | some (txs, b'') => some (tx :: txs, b'')

/-- A Go `map[string]string`, as an association list whose keys are unique:
lookup returns the value of the first (hence only) binding. -/
def goLookup : List (String × String) → String → Option String
  | [], _ => none
  | (k', v') :: rest, k => if k' = k then some v' else goLookup rest k

/-- Go map assignment `m[k] = v`: replace the binding of `k` when present,
otherwise add a new one. -/
def goInsert : List (String × String) → String → String → List (String × String)
  | [], k, v => [(k, v)]
  | (k', v') :: rest, k, v =>
      if k' = k then (k, v) :: rest else (k', v') :: goInsert rest k v

/-- `containsAddresses` (src/main.go lines 513-544): iterate the message's
account keys once; each key present in the watch-list is recorded in the
result map with its watch-list label.  Keys are their canonical textual form
(`key.String()` in the source), so the model uses `String` directly. -/
def containsAddresses (watch : List (String × String)) (accountKeys : List String) :
    List (String × String) :=
  accountKeys.foldl
    (fun acc key =>
      match goLookup watch key with
      | some desc => goInsert acc key desc
      | none => acc)
    []

/-- The watch-list configured in the source (`targetAddresses`,
src/main.go lines 24-31; the commented-out bindings are absent). -/
def targetAddresses : List (String × String) :=
  [("TSLvdd1pWpHVjahSpsvCXUbgwsL3JAcvokwaKt1eokM", "pump")]

/-- The per-account access classification computed by
`printTransactionDetails` (src/main.go lines 334-357), with Go `int`
arithmetic modelled by `Int`.  Returns `(isSigner, isWritable)` for index
`i` given the three header counts and the length of `account_keys`. -/
def classifyAccount (req roS roU numKeys i : Int) : Bool × Bool :=
  if i < req then (true, decide (i < req - roS))
  else (false, decide (i < numKeys - (roS + roU)))

/-- The per-frame slot bookkeeping of the stream loop (src/main.go lines
147-154): given the stored `lastSlot` and the newly observed slot, return
the value stored afterwards (`atomic.StoreInt64(&lastSlot, currentSlot)`,
an unconditional store) and whether the slot-gap warning fires
(`lastSlotValue > 0 && currentSlot > lastSlotValue+10`). -/
def slotUpdate (lastSlot current : Int) : Int × Bool :=
  (current, decide (0 < lastSlot) && decide (lastSlot + 10 < current))

/-- The process-wide counters (src/main.go lines 34-43), as one record of
`int64` values. -/
structure StatsCounters where
  total : Int
  parsed : Int
  txs : Int
  matched : Int
  errors : Int
  reconnects : Int
  lastSlot : Int
deriving DecidableEq

/-- The `(numerator, denominator)` pairs whose floating-point quotients one
`printStats` snapshot computes (src/main.go lines 162-181): the body runs
only when `total > 0`, and then computes `parsed/total` (success rate) and
`matched/txs` (match rate), the latter with no guard on `txs`. -/
def statsDivisions (c : StatsCounters) : List (Int × Int) :=
  if 0 < c.total then [(c.parsed, c.total), (c.matched, c.txs)] else []

/-- Reading a `u64` succeeds on any buffer of at least 8 bytes. -/
theorem readU64LE_eq {b : List Nat} (h : 8 ≤ b.length) :
    readU64LE b = some (u64LE (b.take 8), b.drop 8) := by
  unfold readU64LE
  rw [if_neg (by omega)]

/-- Reading `n` raw bytes succeeds on any buffer of at least `n` bytes. -/
theorem readNBytes_eq {n : Nat} {b : List Nat} (h : n ≤ b.length) :
    readNBytes n b = some (b.take n, b.drop n) := by
  unfold readNBytes
  rw [if_neg (by omega)]

/-- Helper: on buffers of at least 16 bytes, the headered decode defers to
the standard decode of the buffer past its first 8 bytes. -/
theorem parseJitoEntry_defers (data : List Nat) (h : 16 ≤ data.length) :
    parseJitoEntry data = parseStandardEntry (data.drop 8) := by
  unfold parseJitoEntry readU64LE
  rw [if_neg (by omega), if_neg (by omega)]

/-- C2: for every buffer of length at least 16, the headered decode equals
the standard decode applied to the buffer with its first 8 bytes removed:
`parseJitoEntry data = parseStandardEntry (data.drop 8)`, errors included. -/
theorem parseJito_eq_standard_drop8 (data : List Nat) (h : 16 ≤ data.length) :
    parseJitoEntry data = parseStandardEntry (data.drop 8) :=
  parseJitoEntry_defers data h

/-- Witness for C2 at a concrete 16-byte buffer. -/
theorem parseJito_eq_standard_drop8_witness :
    parseJitoEntry (List.replicate 16 0) =
      parseStandardEntry ((List.replicate 16 0).drop 8) :=
  parseJito_eq_standard_drop8 (List.replicate 16 0) (by simp)

/-- C4: for every input buffer shorter than 48 bytes, `processEntry` fails
immediately with the too-small error and returns no entry. -/
theorem processEntry_too_small (data : List Nat) (h : data.length < 48) :
    processEntry data = .error (.tooSmall data.length) := by
  unfold processEntry
  rw [if_pos h]

/-- Witness for C4 at a concrete 47-byte buffer. -/
theorem processEntry_too_small_witness :
    processEntry (List.replicate 47 1) = .error (.tooSmall 47) := by
  have h := processEntry_too_small (List.replicate 47 1) (by simp)
  simpa using h

/-- C3: a declared `num_hashes` above 1,000,000 fails with the
unreasonable-hash-count error (checked right after the first 8 bytes,
regardless of anything after them), and a declared `num_txns` above 10,000 in
an otherwise well-formed 48-byte head fails with the
unreasonable-transaction-count error, in both cases without any transaction
parsing (the returned error is the corresponding head-phase error). -/
theorem parseStandard_unreasonable_counts :
    (∀ data : List Nat, 8 ≤ data.length → 1000000 < u64LE (data.take 8) →
      parseStandardEntry data =
        .error (.unreasonableNumHashes (u64LE (data.take 8))))
    ∧ (∀ data : List Nat, 48 ≤ data.length → u64LE (data.take 8) ≤ 1000000 →
      10000 < u64LE ((data.drop 40).take 8) →
      parseStandardEntry data =
        .error (.unreasonableNumTxns (u64LE ((data.drop 40).take 8)))) := by
  constructor
  · intro data hlen hgt
    simp only [parseStandardEntry, parseEntryHead, readU64LE_eq hlen]
    rw [if_pos hgt]
  · intro data hlen hle hgt
    have h3 : (data.drop 8).drop 32 = data.drop 40 := by
      rw [List.drop_drop]
    have h2 : readNBytes 32 (data.drop 8) =
        some ((data.drop 8).take 32, data.drop 40) := by
      rw [readNBytes_eq (by simp only [List.length_drop]; omega), h3]
    simp only [parseStandardEntry, parseEntryHead,
      readU64LE_eq (show 8 ≤ data.length by omega)]
    rw [if_neg (by omega)]
    simp only [h2, readU64LE_eq (show 8 ≤ (data.drop 40).length by
      simp only [List.length_drop]; omega)]
    rw [if_pos hgt]

/-- Witness for C3: a buffer declaring 1,000,001 hashes is rejected, and a
48-byte buffer declaring 10,001 transactions is rejected. -/
theorem parseStandard_unreasonable_counts_witness :
    parseStandardEntry [65, 66, 15, 0, 0, 0, 0, 0] =
      .error (.unreasonableNumHashes 1000001)
    ∧ parseStandardEntry
        (List.replicate 40 0 ++ [17, 39, 0, 0, 0, 0, 0, 0]) =
      .error (.unreasonableNumTxns 10001) := by
  constructor
  · have h := parseStandard_unreasonable_counts.1 [65, 66, 15, 0, 0, 0, 0, 0]
      (by decide) (by decide)
    simpa using h
  · have h := parseStandard_unreasonable_counts.2
      (List.replicate 40 0 ++ [17, 39, 0, 0, 0, 0, 0, 0])
      (by decide) (by decide) (by decide)
    simpa using h

/-- C5: when the head passes both count sanity checks but the
minimum-plausible-size estimate `num_txns * 100` exceeds the bytes remaining
after the 48-byte head, the standard decode fails with the
insufficient-bytes error, before any transaction parsing. -/
theorem parseStandard_insufficient_bytes (data : List Nat)
    (hlen : 48 ≤ data.length)
    (hh : u64LE (data.take 8) ≤ 1000000)
    (ht : u64LE ((data.drop 40).take 8) ≤ 10000)
    (hrem : data.length - 48 < u64LE ((data.drop 40).take 8) * 100) :
    parseStandardEntry data =
      .error (.insufficientBytes (u64LE ((data.drop 40).take 8))) := by
  have h3 : (data.drop 8).drop 32 = data.drop 40 := by
    rw [List.drop_drop]
  have h2 : readNBytes 32 (data.drop 8) =
      some ((data.drop 8).take 32, data.drop 40) := by
    rw [readNBytes_eq (by simp only [List.length_drop]; omega), h3]
  have h4 : (data.drop 40).drop 8 = data.drop 48 := by
    rw [List.drop_drop]
  simp only [parseStandardEntry, parseEntryHead,
    readU64LE_eq (show 8 ≤ data.length by omega)]
  rw [if_neg (by omega)]
  simp only [h2, readU64LE_eq (show 8 ≤ (data.drop 40).length by
    simp only [List.length_drop]; omega), h4]
  rw [if_neg (by omega), if_pos (by simp only [List.length_drop]; omega)]

/-- Witness for C5: a 48-byte buffer declaring one transaction with zero
bytes left is rejected for insufficient bytes. -/
theorem parseStandard_insufficient_bytes_witness :
    parseStandardEntry (List.replicate 40 0 ++ [1, 0, 0, 0, 0, 0, 0, 0]) =
      .error (.insufficientBytes 1) := by
  have h := parseStandard_insufficient_bytes
    (List.replicate 40 0 ++ [1, 0, 0, 0, 0, 0, 0, 0])
    (by decide) (by decide) (by decide) (by decide)
  simpa using h

/-- A successful `runTxs i` returns exactly `i` transactions. -/
theorem runTxs_length :
    ∀ (i : Nat) (b : List Nat) (txs : List Transaction) (b' : List Nat),
      runTxs i b = some (txs, b') → txs.length = i := by
  intro i
  induction i with
  | zero =>
      intro b txs b' h
      simp only [runTxs, Option.some.injEq, Prod.mk.injEq] at h
      rw [← h.1]
      rfl
  | succ k ih =>
      intro b txs b' h
      simp only [runTxs] at h
      cases hd : decodeTx b with
      | error e => rw [hd] at h; simp at h
      | ok p =>
          obtain ⟨tx, b1⟩ := p
          rw [hd] at h
          simp only at h
          cases hr : runTxs k b1 with
          | none => rw [hr] at h; simp at h
          | some q =>
              obtain ⟨txs', b''⟩ := q
              rw [hr] at h
              simp only [Option.some.injEq, Prod.mk.injEq] at h
              rw [← h.1]
              simp [ih b1 txs' b'' hr]

/-- If the first `i` transactions decode and the next one fails, the
partial-success loop of `parseStandardEntry` (run with enough fuel and a loop
index that is nonzero whenever `i = 0`) returns exactly the accumulated
transactions followed by those `i`. -/
theorem txLoopPartial_of_runTxs :
    ∀ (i fuel j : Nat) (b : List Nat) (acc txs : List Transaction)
      (b' : List Nat) (e : TxError),
      runTxs i b = some (txs, b') → decodeTx b' = .error e → i < fuel →
      (i = 0 → 1 ≤ j) →
      txLoopPartial fuel j b acc = .ok (acc.reverse ++ txs) := by
  intro i
  induction i with
  | zero =>
      intro fuel j b acc txs b' e hrun hdec hfuel hj
      simp only [runTxs, Option.some.injEq, Prod.mk.injEq] at hrun
      obtain ⟨h1, h2⟩ := hrun
      obtain ⟨f, rfl⟩ : ∃ f, fuel = f + 1 := ⟨fuel - 1, by omega⟩
      rw [← h2] at hdec
      simp only [txLoopPartial, hdec]
      rw [if_neg (by omega), ← h1]
      simp
  | succ k ih =>
      intro fuel j b acc txs b' e hrun hdec hfuel hj
      simp only [runTxs] at hrun
      cases hd : decodeTx b with
      | error e' => rw [hd] at hrun; simp at hrun
      | ok p =>
          obtain ⟨tx, b1⟩ := p
          rw [hd] at hrun
          simp only at hrun
          cases hr : runTxs k b1 with
          | none => rw [hr] at hrun; simp at hrun
          | some q =>
              obtain ⟨txs', b''⟩ := q
              rw [hr] at hrun
              simp only [Option.some.injEq, Prod.mk.injEq] at hrun
              obtain ⟨h1, h2⟩ := hrun
              obtain ⟨f, rfl⟩ : ∃ f, fuel = f + 1 := ⟨fuel - 1, by omega⟩
              simp only [txLoopPartial, hd]
              rw [← h2] at hdec
              rw [ih f (j + 1) b1 (tx :: acc) txs' b'' e hr hdec (by omega)
                (by omega), ← h1]
              simp

/-- If the first `i` transactions decode and the next one fails, the strict
loop of `SolanaEntry.UnmarshalWithDecoder` (run with enough fuel) fails,
reporting the failing index. -/
theorem txLoopStrict_of_runTxs :
    ∀ (i fuel j : Nat) (b : List Nat) (acc txs : List Transaction)
      (b' : List Nat) (e : TxError),
      runTxs i b = some (txs, b') → decodeTx b' = .error e → i < fuel →
      txLoopStrict fuel j b acc = .error (.txnDecodeFailed (j + i) e) := by
  intro i
  induction i with
  | zero =>
      intro fuel j b acc txs b' e hrun hdec hfuel
      simp only [runTxs, Option.some.injEq, Prod.mk.injEq] at hrun
      obtain ⟨f, rfl⟩ : ∃ f, fuel = f + 1 := ⟨fuel - 1, by omega⟩
      rw [← hrun.2] at hdec
      simp only [txLoopStrict, hdec]
      simp
  | succ k ih =>
      intro fuel j b acc txs b' e hrun hdec hfuel
      simp only [runTxs] at hrun
      cases hd : decodeTx b with
      | error e' => rw [hd] at hrun; simp at hrun
      | ok p =>
          obtain ⟨tx, b1⟩ := p
          rw [hd] at hrun
          simp only at hrun
          cases hr : runTxs k b1 with
          | none => rw [hr] at hrun; simp at hrun
          | some q =>
              obtain ⟨txs', b''⟩ := q
              rw [hr] at hrun
              simp only [Option.some.injEq, Prod.mk.injEq] at hrun
              obtain ⟨f, rfl⟩ : ∃ f, fuel = f + 1 := ⟨fuel - 1, by omega⟩
              simp only [txLoopStrict, hd]
              rw [← hrun.2] at hdec
              rw [ih f (j + 1) b1 (tx :: acc) txs' b'' e hr hdec (by omega)]
              congr 1
              congr 1
              omega

/-- C1: the production decode path (`parseJitoEntry`, which runs
`parseStandardEntry` on the buffer past the 8-byte header) applies the
per-transaction failure policy.  Given any buffer whose head phase succeeds
with declared count `N` and transaction bytes `rest`: if the first declared
transaction fails to decode, the whole decode returns that error and no
entry; if the first `i` transactions decode (`1 ≤ i < N`, so `N ≥ 2`) and the
next fails, the decode succeeds and returns exactly those `i` transactions. -/
theorem parseJito_txn_failure_policy (data : List Nat) (nh : Nat) (hsh : Bytes)
    (N : Nat) (rest : List Nat)
    (hlen : 16 ≤ data.length)
    (hhead : parseEntryHead (data.drop 8) = .ok (nh, hsh, N, rest)) :
    (∀ e : TxError, 1 ≤ N → decodeTx rest = .error e →
        parseJitoEntry data = .error (.firstTxnFailed e))
    ∧ (∀ (i : Nat) (txs : List Transaction) (b : List Nat) (e : TxError),
        1 ≤ i → i < N →
        runTxs i rest = some (txs, b) → decodeTx b = .error e →
        parseJitoEntry data = .ok ⟨nh, hsh, txs⟩ ∧ txs.length = i) := by
  have hj : parseJitoEntry data = parseStandardEntry (data.drop 8) :=
    parseJitoEntry_defers data hlen
  constructor
  · intro e hN hdec
    rw [hj]
    simp only [parseStandardEntry, hhead]
    obtain ⟨m, rfl⟩ : ∃ m, N = m + 1 := ⟨N - 1, by omega⟩
    simp only [txLoopPartial, hdec]
    simp
  · intro i txs b e hi hiN hrun hdec
    rw [hj]
    simp only [parseStandardEntry, hhead]
    rw [txLoopPartial_of_runTxs i N 0 rest [] txs b e hrun hdec hiN
      (by omega)]
    exact ⟨by simp, runTxs_length i rest txs b hrun⟩

/-- One minimal well-formed transaction on the wire: one signature (64 bytes
of 7), a zero header, no account keys, a blockhash of 9s, no instructions. -/
def wTx1Bytes : List Nat :=
  [1] ++ List.replicate 64 7 ++ [0, 0, 0] ++ [0] ++ List.replicate 32 9 ++ [0]

/-- 98 trailing bytes that cannot decode as a transaction (every byte has the
compact-length continuation bit set, so the length read runs off the end). -/
def wBadBytes : List Nat := List.replicate 98 128

/-- A standard-framed entry declaring 2 transactions whose second is corrupt:
`num_hashes = 0`, a hash of 5s, `num_txns = 2`, one good transaction, then
`wBadBytes`. -/
def wEntryBody : List Nat :=
  List.replicate 8 0 ++ List.replicate 32 5 ++ [2, 0, 0, 0, 0, 0, 0, 0] ++
    wTx1Bytes ++ wBadBytes

/-- The same entry in headered (Jito) framing: 8 header bytes prepended. -/
def wJitoData : List Nat := List.replicate 8 255 ++ wEntryBody

/-- The decoded form of `wTx1Bytes`. -/
def wTx1 : Transaction :=
  ⟨[List.replicate 64 7], ⟨⟨0, 0, 0⟩, [], List.replicate 32 9, []⟩⟩

/-- Witness for C1: on the concrete headered buffer `wJitoData` (declared
count 2, second transaction corrupt) the production decode succeeds with
exactly the one transaction decoded before the corruption point. -/
theorem parseJito_txn_failure_policy_witness :
    parseJitoEntry wJitoData = .ok ⟨0, List.replicate 32 5, [wTx1]⟩ :=
  ((parseJito_txn_failure_policy wJitoData 0 (List.replicate 32 5) 2
      (wTx1Bytes ++ wBadBytes) (by decide) (by rfl)).2 1 [wTx1] wBadBytes
      .truncated (by decide) (by decide) (by rfl) (by rfl)).1

/-- A standard-framed entry declaring `num_hashes = 2,000,000` (LE bytes
`[128, 132, 30, 0, ...]`), a zero hash, and zero transactions. -/
def bigHashEntryBytes : List Nat :=
  [128, 132, 30, 0, 0, 0, 0, 0] ++ List.replicate 32 0 ++ List.replicate 8 0

/-- C10: the independently exposed `SolanaEntry.UnmarshalWithDecoder` is
strict — whenever any declared transaction fails to decode (the first `i`
decode, the next fails, `i < N`), the method returns an error carrying the
failing index and no partial entry — and it performs no upper bound check on
`num_hashes`: the concrete buffer `bigHashEntryBytes`, which declares
2,000,000 > 1,000,000 hashes, decodes successfully through it while the
production `parseStandardEntry` rejects it as unreasonable. -/
theorem unmarshal_strict_and_no_hash_bound :
    (∀ (data : List Nat) (nh : Nat) (hsh : Bytes) (N : Nat) (rest : List Nat)
       (i : Nat) (txs : List Transaction) (b : List Nat) (e : TxError),
      unmarshalEntryHead data = .ok (nh, hsh, N, rest) →
      runTxs i rest = some (txs, b) → decodeTx b = .error e → i < N →
      entryUnmarshalWithDecoder data = .error (.txnDecodeFailed i e))
    ∧ (entryUnmarshalWithDecoder bigHashEntryBytes =
         .ok ⟨2000000, List.replicate 32 0, []⟩
       ∧ 1000000 < 2000000
       ∧ parseStandardEntry bigHashEntryBytes =
           .error (.unreasonableNumHashes 2000000)) := by
  constructor
  · intro data nh hsh N rest i txs b e hhead hrun hdec hiN
    simp only [entryUnmarshalWithDecoder, hhead]
    rw [txLoopStrict_of_runTxs i N 0 rest [] txs b e hrun hdec hiN]
    simp
  · exact ⟨by rfl, by norm_num, by rfl⟩

/-- A buffer for the strict-loop witness: well-formed 48-byte head declaring
one transaction, followed by 100 undecodable bytes. -/
def wStrictData : List Nat :=
  List.replicate 8 0 ++ List.replicate 32 0 ++ [1, 0, 0, 0, 0, 0, 0, 0] ++
    List.replicate 100 128

/-- Witness for C10: on `wStrictData` the sole declared transaction fails to
decode and `SolanaEntry.UnmarshalWithDecoder` returns an error (index 0),
unlike the partial-success policy. -/
theorem unmarshal_strict_and_no_hash_bound_witness :
    entryUnmarshalWithDecoder wStrictData =
      .error (.txnDecodeFailed 0 .truncated) :=
  unmarshal_strict_and_no_hash_bound.1 wStrictData 0 (List.replicate 32 0) 1
    (List.replicate 100 128) 0 [] (List.replicate 100 128) .truncated
    (by rfl) (by rfl) (by rfl) (by decide)

/-- Looking up after a Go map assignment: the assigned key yields the new
value, any other key is unaffected. -/
theorem goLookup_goInsert :
    ∀ (m : List (String × String)) (k v a : String),
      goLookup (goInsert m k v) a = if k = a then some v else goLookup m a := by
  intro m k v a
  induction m with
  | nil => simp [goInsert, goLookup]
  | cons p rest ih =>
      obtain ⟨k', v'⟩ := p
      by_cases hk : k' = k <;> by_cases ha : k' = a <;> by_cases hka : k = a <;>
        simp_all [goInsert, goLookup]

/-- The fold inside `containsAddresses`, on an arbitrary accumulator: an
address found among the keys and present in the watch-list resolves to its
watch-list label, anything else falls back to the accumulator. -/
theorem containsAddresses_foldl (watch : List (String × String)) :
    ∀ (keys : List String) (acc : List (String × String)) (a : String),
      goLookup (keys.foldl (fun acc key =>
          match goLookup watch key with
          | some desc => goInsert acc key desc
          | none => acc) acc) a =
        if a ∈ keys ∧ (goLookup watch a).isSome then goLookup watch a
        else goLookup acc a := by
  intro keys
  induction keys with
  | nil => intro acc a; simp
  | cons key rest ih =>
      intro acc a
      simp only [List.foldl_cons]
      rw [ih]
      cases hw : goLookup watch key with
      | none =>
          simp only [hw]
          by_cases ha : a = key
          · subst ha
            simp [hw, List.mem_cons]
          · simp [ha, List.mem_cons]
      | some d =>
          simp only [hw]
          rw [goLookup_goInsert]
          by_cases ha : a = key
          · subst ha
            simp [hw, List.mem_cons]
          · have hka : ¬ key = a := fun h => ha h.symm
            simp [ha, hka, List.mem_cons]

/-- The fold inside `containsAddresses` leaves the accumulator untouched when
no key is watch-listed. -/
theorem containsAddresses_foldl_none (watch : List (String × String)) :
    ∀ (keys : List String) (acc : List (String × String)),
      (∀ k ∈ keys, goLookup watch k = none) →
      keys.foldl (fun acc key =>
          match goLookup watch key with
          | some desc => goInsert acc key desc
          | none => acc) acc = acc := by
  intro keys
  induction keys with
  | nil => intro acc _; rfl
  | cons key rest ih =>
      intro acc hnone
      have h := hnone key (by simp)
      simp only [List.foldl_cons, h]
      exact ih acc (fun k hk => hnone k (List.mem_cons_of_mem _ hk))

/-- C6: for every watch-list and message key sequence, `containsAddresses`
returns exactly the mapping whose keys are the account keys present in the
watch-list, each bound to its watch-list label (characterised by lookups);
in particular a message containing no watch-listed address yields the empty
mapping. -/
theorem containsAddresses_exact (watch : List (String × String))
    (accountKeys : List String) :
    (∀ a : String, goLookup (containsAddresses watch accountKeys) a =
        if a ∈ accountKeys then goLookup watch a else none)
    ∧ ((∀ k ∈ accountKeys, goLookup watch k = none) →
        containsAddresses watch accountKeys = []) := by
  constructor
  · intro a
    unfold containsAddresses
    rw [containsAddresses_foldl]
    by_cases hm : a ∈ accountKeys
    · cases hw : goLookup watch a with
      | none => simp [hm, hw, goLookup]
      | some d => simp [hm, hw]
    · simp [hm, goLookup]
  · intro hnone
    unfold containsAddresses
    exact containsAddresses_foldl_none watch accountKeys [] hnone

/-- Witness for C6: keys `[A, B, C]` against watch-list `{B : L1}` resolve
`B` to its label, and a key sequence with no watch-listed address yields the
empty mapping. -/
theorem containsAddresses_exact_witness :
    goLookup (containsAddresses [("B", "L1")] ["A", "B", "C"]) "B" =
      (if "B" ∈ ["A", "B", "C"] then goLookup [("B", "L1")] "B" else none)
    ∧ containsAddresses [("B", "L1")] ["X"] = [] :=
  ⟨(containsAddresses_exact [("B", "L1")] ["A", "B", "C"]).1 "B",
   (containsAddresses_exact [("B", "L1")] ["X"]).2 (by decide)⟩

/-- C7: the access classification of `printTransactionDetails` satisfies the
header-count characterisation: index `i` is a signer iff
`i < num_required_signatures`; a signer is writable iff
`i < num_required_signatures - num_readonly_signed`; a non-signer is writable
iff `i < len(account_keys) - (num_readonly_signed + num_readonly_unsigned)`;
every other index is read-only. -/
theorem classifyAccount_spec (req roS roU numKeys i : Int) :
    ((classifyAccount req roS roU numKeys i).1 = true ↔ i < req)
    ∧ (i < req →
        ((classifyAccount req roS roU numKeys i).2 = true ↔ i < req - roS))
    ∧ (¬ i < req →
        ((classifyAccount req roS roU numKeys i).2 = true ↔
          i < numKeys - (roS + roU))) := by
  by_cases h : i < req <;> simp [classifyAccount, h]

/-- Witness for C7 at the spec's example header (2 required signatures, 1
readonly signed, 1 readonly unsigned, 4 keys): index 1 is a signer and
read-only, index 2 is a non-signer and writable. -/
theorem classifyAccount_spec_witness :
    ((classifyAccount 2 1 1 4 1).2 = true ↔ (1 : Int) < 2 - 1)
    ∧ ((classifyAccount 2 1 1 4 2).2 = true ↔ (2 : Int) < 4 - (1 + 1)) :=
  ⟨(classifyAccount_spec 2 1 1 4 1).2.1 (by norm_num),
   (classifyAccount_spec 2 1 1 4 2).2.2 (by norm_num)⟩

/-- Counterexample to C8: the stream loop stores the newly observed slot
unconditionally, so after observing slot 3 with stored value 5 the stored
value is 3, not `max 5 3 = 5` — the stored slot is not a high-water mark
and can decrease. -/
theorem lastSlot_not_high_water : ¬ (slotUpdate 5 3).1 = max 5 3 := by
  decide

/-- C8 as amended: after a frame with slot `s` is processed the stored
last-slot value equals `s` itself (a plain store, which can decrease), and
the gap warning fires exactly when the previous value is positive and `s`
exceeds it by more than 10. -/
theorem slotUpdate_stores_current (lastSlot current : Int) :
    (slotUpdate lastSlot current).1 = current
    ∧ ((slotUpdate lastSlot current).2 = true ↔
        0 < lastSlot ∧ lastSlot + 10 < current) := by
  refine ⟨rfl, ?_⟩
  simp [slotUpdate]

/-- Counterexample to C9: with one frame seen and zero transactions counted,
the snapshot body runs (total > 0) and computes the match rate by the
division `matched / txs` with denominator 0 — the pair `(1, 0)` is among the
divisions performed, instead of any 0% substitution. -/
theorem stats_divides_by_zero_counterexample :
    ((1 : Int), (0 : Int)) ∈ statsDivisions ⟨1, 1, 0, 1, 0, 0, 0⟩ := by
  decide

/-- C9 as amended: the snapshot's only zero-denominator guard is skipping the
whole report when `total ≤ 0`; when the report runs, the success-rate
denominator `total` is never zero, and a zero-denominator division occurs
exactly when `txs = 0` (the unguarded match-rate division). -/
theorem stats_division_guard (c : StatsCounters) :
    ((c.parsed, c.total) ∈ statsDivisions c → c.total ≠ 0)
    ∧ ((∃ p ∈ statsDivisions c, p.2 = 0) ↔ 0 < c.total ∧ c.txs = 0) := by
  unfold statsDivisions
  by_cases h : 0 < c.total
  · rw [if_pos h]
    refine ⟨fun _ => by omega, ?_, ?_⟩
    · rintro ⟨p, hp, hz⟩
      refine ⟨h, ?_⟩
      simp only [List.mem_cons, List.mem_singleton] at hp
      rcases hp with h1 | h1 | h1
      · rw [h1] at hz; simp at hz; omega
      · rw [h1] at hz; simpa using hz
      · simp at h1
    · rintro ⟨-, hz⟩
      exact ⟨(c.matched, c.txs), by simp, hz⟩
  · rw [if_neg h]
    refine ⟨fun hmem => by simp at hmem, ?_, ?_⟩
    · rintro ⟨p, hp, -⟩
      simp at hp
    · rintro ⟨h0, -⟩
      exact absurd h0 h

/-- Witness for C9's amended statement: with counters `total = 1, txs = 2`
the success-rate denominator is nonzero, and with `total = 1, txs = 0` a
zero-denominator division occurs. -/
theorem stats_division_guard_witness :
    (1 : Int) ≠ 0
    ∧ ((∃ p ∈ statsDivisions ⟨1, 1, 0, 1, 0, 0, 0⟩, p.2 = 0) ↔
        0 < (1 : Int) ∧ (0 : Int) = 0) :=
  ⟨(stats_division_guard ⟨1, 1, 2, 3, 0, 0, 0⟩).1 (by decide),
   (stats_division_guard ⟨1, 1, 0, 1, 0, 0, 0⟩).2⟩
